import Mathlib

/-!
Shallow embedding of `generate_portfolio.py`, a script that concatenates
per-project README files into one aggregated markdown document with a
generated table of contents.

Modelling conventions:
* Python strings are modelled as Lean `String` (a list of unicode
  codepoints); case mappings and digit tests are modelled for the ASCII
  range, matching what `Char.toLower`, `Char.toUpper` and `Char.isDigit`
  implement and what the Python functions do on ASCII input.
* The filesystem is a value: the project root is a list of entries, a
  directory is a name together with the list of (filename, content) pairs
  of the files directly inside it.
* The effect of one run is a `RunResult`: the lines printed to stdout and
  the (path, content) pair written, if any.  A run that writes nothing
  leaves every existing file unchanged.
-/

namespace PortfolioGen

/-- Python `name.replace("-", " ")` for the single character dash. -/
def replaceDash (s : String) : String :=
  ⟨s.data.map fun c => if c = '-' then ' ' else c⟩

/-- Python `name.lower()` (ASCII case mapping). -/
def lowerStr (s : String) : String :=
  ⟨s.data.map Char.toLower⟩

/-- Python `s.replace(" ", "-")` for the single character space. -/
def spaceToHyphen (s : String) : String :=
  ⟨s.data.map fun c => if c = ' ' then '-' else c⟩

/-- The anchor slug of line 32 of the script: `name.lower().replace(" ", "-")`. -/
def anchorOf (name : String) : String :=
  spaceToHyphen (lowerStr name)

/-- Core of Python `str.title()`: a cased character is uppercased when the
previous character is not cased and lowercased otherwise; the boolean
argument records whether the previous character was cased (for ASCII,
cased = alphabetic). -/
def titleCore : Bool → List Char → List Char
  | _, [] => []
  | prevCased, c :: cs =>
    (if c.isAlpha then (if prevCased then c.toLower else c.toUpper) else c)
      :: titleCore c.isAlpha cs

/-- Python `s.title()`. -/
def pyTitle (s : String) : String :=
  ⟨titleCore false s.data⟩

/-- Python `s.split(" ", 1)`: the characters before the first space, and,
when a space exists, the characters after it. -/
def splitFirstSpace : List Char → List Char × Option (List Char)
  | [] => ([], none)
  | c :: cs =>
    if c = ' ' then ([], some cs)
    else
      let p := splitFirstSpace cs
      (c :: p.1, p.2)

/-- Python `w.isdigit()` on ASCII input: nonempty and all decimal digits. -/
def isDigits (l : List Char) : Bool :=
  !l.isEmpty && l.all Char.isDigit

/-- Lines 29 to 31 of the script: split the title at the first space; when
the part before it is purely numeric and a second part exists, keep only
the second part. -/
def dropNumWord (title : String) : String :=
  match splitFirstSpace title.data with
  | (w, some rest) => if isDigits w then ⟨rest⟩ else title
  | (_, none) => title

/-- The table of contents title derived from a directory name
(lines 27 to 31 of the script). -/
def titleOf (name : String) : String :=
  dropNumWord (pyTitle (replaceDash name))

/-- One table of contents line: Python f-string
`f"{i}. [{title}](#{anchor})\n"`. -/
def tocLine (i : Nat) (name : String) : String :=
  toString i ++ (". [" ++ (titleOf name ++ ("](#" ++ (anchorOf name ++ ")\n"))))

/-- The enumerated loop body of `generate_toc`, starting at index `i`. -/
def tocEntries : Nat → List (String × String) → String
  | _, [] => ""
  | i, (name, _) :: ps => tocLine i name ++ tocEntries (i + 1) ps

/-- Function `generate_toc(projects)` from the script. -/
def generate_toc (projects : List (String × String)) : String :=
  "## Table of Contents\n\n" ++ tocEntries 1 projects

/-- A directory: its name and the (filename, content) pairs of the files
directly inside it. -/
structure Dir where
  name : String
  files : List (String × String)
deriving DecidableEq

/-- An entry of the project root: a subdirectory or a plain file. -/
inductive Entry where
  | dir (d : Dir)
  | file (name content : String)
deriving DecidableEq

/-- Function `read_readme(project_dir)`: the content of the file literally named
`README.md` directly inside the directory, or `none` when no such file
exists. -/
def read_readme (d : Dir) : Option String :=
  d.files.lookup "README.md"

/-- The subdirectories of the root, in the arbitrary order the filesystem
returns them (the `d.is_dir()` filter of line 13). -/
def rootDirs (root : List Entry) : List Dir :=
  root.filterMap fun e =>
    match e with
    | .dir d => some d
    | .file _ _ => none

/-- Lexicographic codepoint comparison of two strings, as Python compares
`str` values: shorter strings win ties, otherwise the first differing
codepoint decides. -/
def strLeB : List Char → List Char → Bool
  | [], _ => true
  | _ :: _, [] => false
  | a :: as, b :: bs => if a < b then true else if b < a then false else strLeB as bs

/-- Comparison used by `sorted(...)` on line 13: paths sharing the parent
`docs/project` compare exactly by their final component, codepointwise. -/
def dirLe (a b : Dir) : Prop :=
  strLeB a.name.data b.name.data = true

instance : DecidableRel dirLe :=
  fun a b => (inferInstance : Decidable (strLeB a.name.data b.name.data = true))

/-- Function `get_project_dirs()`: the subdirectories sorted by name ascending. -/
def get_project_dirs (root : List Entry) : List Dir :=
  List.insertionSort dirLe (rootDirs root)

/-- The filter of lines 38 to 41: a directory contributes the pair
`(name, content)` exactly when `read_readme` returns a truthy (nonempty)
string. -/
def includeProj (d : Dir) : Option (String × String) :=
  match read_readme d with
  | some c => if c = "" then none else some (d.name, c)
  | none => none

/-- The `projects` list accumulated by `main` (lines 37 to 41). -/
def collectProjects (root : List Entry) : List (String × String) :=
  (get_project_dirs root).filterMap includeProj

/-- The fixed text preceding the generation date in the header f-string. -/
def docHead : String :=
  "# DevSecOps & Cloud Security Portfolio\n\n> **BAMG Studio** | Generated "

/-- The fixed text between the generation date and the table of
contents in the header f-string. -/
def headerMid : String :=
  "\n>\n> Comprehensive documentation for 12 enterprise-grade security,\n> DevOps, and ML engineering projects demonstrating expertise in\n> AWS cloud architecture, security automation, and MLOps.\n\n---\n\n"

/-- One body section (line 64):
`f"\n\n---\n\n<!-- PROJECT: {name} -->\n\n{content}\n"`. -/
def projectSection (name content : String) : String :=
  "\n\n---\n\n<!-- PROJECT: " ++ (name ++ (" -->\n\n" ++ (content ++ "\n")))

/-- The body appended by the loop of lines 63 to 64, in project order. -/
def sections : List (String × String) → String
  | [] => ""
  | (n, c) :: ps => projectSection n c ++ sections ps

/-- The full assembled document: header f-string (lines 48 to 61) followed
by every body section. -/
def assembleDoc (date : String) (projects : List (String × String)) : String :=
  docHead ++ (date ++ (headerMid ++ (generate_toc projects ++ ("\n---\n\n" ++ sections projects))))

/-- Everything in the assembled document after the generation date; a
function of the project list alone. -/
def docTail (projects : List (String × String)) : String :=
  headerMid ++ (generate_toc projects ++ ("\n---\n\n" ++ sections projects))

/-- Python `f"{n:,}"` for a natural number: decimal digits with a comma
every three digits, counted from the right. -/
def commaRev : List Char → List Char
  | a :: b :: c :: d :: rest => a :: b :: c :: ',' :: commaRev (d :: rest)
  | l => l

/-- Python thousands-separator formatting `f"{n:,}"`. -/
def pyThousands (n : Nat) : String :=
  ⟨(commaRev (toString n).data.reverse).reverse⟩

/-- The observable effect of one run: the lines printed to stdout and the
written (path, content) pair, when a write happens. -/
structure RunResult where
  stdout : List String
  written : Option (String × String)
deriving DecidableEq

/-- Lines 43 to 73 of `main`, as a function of the collected projects. -/
def runWith (projects : List (String × String)) (date : String) : RunResult :=
  if projects.isEmpty then
    { stdout := ["No project README files found!"], written := none }
  else
    let doc := assembleDoc date projects
    { stdout :=
        ["Portfolio generated: docs/PORTFOLIO.md",
         "Total projects: " ++ toString projects.length,
         "Total size: " ++ (pyThousands doc.length ++ " characters")],
      written := some ("docs/PORTFOLIO.md", doc) }

/-- Function `main()`: one run of the script over a root directory listing, with the
current UTC date already formatted as `YYYY-MM-DD`.  The run always
terminates normally in this model (exit status zero); filesystem errors are
outside the embedded state space. -/
def main (root : List Entry) (date : String) : RunResult :=
  runWith (collectProjects root) date

/-- Number of bytes of the UTF-8 encoding of one codepoint. -/
def charBytes (c : Char) : Nat :=
  if c.val ≤ 0x7F then 1 else if c.val ≤ 0x7FF then 2 else if c.val ≤ 0xFFFF then 3 else 4

/-- Byte length of the written file: the output is opened in text mode and
encoded with the default UTF-8 codec, so the file holds the UTF-8 encoding
of the document. -/
def byteLen (s : String) : Nat :=
  (s.data.map charBytes).sum

/-- Concatenation of a list of strings, in order. -/
def concatStrs : List String → String
  | [] => ""
  | s :: l => s ++ concatStrs l

/-- Whether an optional preceding character is a cased character. -/
def prevCased : Option Char → Bool
  | some c => c.isAlpha
  | none => false

/-- The casing rule of Python `str.title()`, phrased pointwise: a letter
preceded by a letter is lowercased, a letter preceded by a non-letter (or
at the start) is uppercased, and every other character is kept. -/
def titleStep (x : Char × Option Char) : Char :=
  if x.1.isAlpha then (if prevCased x.2 then x.1.toLower else x.1.toUpper) else x.1

/-- Modelled from the spec: capitalize the first letter of each
whitespace-separated word, leaving all other characters unchanged; the
boolean records whether the next character starts a word. -/
def capWords : Bool → List Char → List Char
  | _, [] => []
  | atStart, c :: cs =>
    if c = ' ' then c :: capWords true cs
    else (if atStart then c.toUpper else c) :: capWords false cs

/-- Modelled from the spec: the table of contents title as the claim words
it, with title-casing done by capitalizing the first letter of each
whitespace-separated word. -/
def specC3Title (name : String) : String :=
  dropNumWord ⟨capWords true (replaceDash name).data⟩

/-- Modelled from the spec: the anchor slug as the claim words it, the
directory name lowercased with every space replaced by a hyphen, in one
pass over the characters. -/
def specAnchor (name : String) : String :=
  ⟨name.data.map fun c => if c.toLower = ' ' then '-' else c.toLower⟩

/-- Two directories are similar when they have the same name and
contribute the same project entry (or lack of one) to the run. -/
def dirSim (a b : Dir) : Prop :=
  a.name = b.name ∧ includeProj a = includeProj b

/-- A root whose single subdirectory holds an empty `README.md`. -/
def cexRoot : List Entry :=
  [Entry.dir ⟨"alpha", [("README.md", "")]⟩]

/-- A root whose single README holds characters outside ASCII. -/
def root9 : List Entry :=
  [Entry.dir ⟨"alpha", [("README.md", "# Résumé\n")]⟩]

/-- The document assembled on `root9` at a fixed date. -/
def doc9 : String :=
  assembleDoc "2025-05-05" (collectProjects root9)

end PortfolioGen

namespace PortfolioGen

lemma strLeB_iff_not_lex : ∀ as bs : List Char, strLeB as bs = true ↔ ¬ List.Lex (· < ·) bs as
  | [], bs => by
    refine iff_of_true rfl ?_
    intro h
    cases h
  | a :: as, [] => by
    refine iff_of_false ?_ ?_
    · simp [strLeB]
    · intro h
      exact h (List.Lex.nil)
  | a :: as, b :: bs => by
    rcases lt_trichotomy a b with hab | rfl | hba
    · refine iff_of_true ?_ ?_
      · simp [strLeB, hab]
      · intro h
        cases h with
        | cons h' => exact lt_irrefl a hab
        | rel h' => exact lt_asymm hab h'
    · rw [strLeB, if_neg (lt_irrefl a), if_neg (lt_irrefl a), strLeB_iff_not_lex as bs]
      constructor
      · intro h hlex
        cases hlex with
        | cons h' => exact h h'
        | rel h' => exact lt_irrefl a h'
      · intro h hlex
        exact h (List.Lex.cons hlex)
    · refine iff_of_false ?_ ?_
      · simp [strLeB, hba, lt_asymm hba]
      · intro h
        exact h (List.Lex.rel hba)

lemma strLeB_iff_le (a b : String) : strLeB a.data b.data = true ↔ a ≤ b := by
  rw [strLeB_iff_not_lex, String.le_iff_toList_le]
  exact @not_lt (List Char) _ b.data a.data

lemma dirLe_iff (a b : Dir) : dirLe a b ↔ a.name ≤ b.name :=
  strLeB_iff_le a.name b.name

instance : IsTotal Dir dirLe :=
  ⟨fun a b => by
    rw [dirLe_iff, dirLe_iff]
    exact le_total a.name b.name⟩

instance : IsTrans Dir dirLe :=
  ⟨fun a b c h₁ h₂ => by
    rw [dirLe_iff] at *
    exact le_trans h₁ h₂⟩

lemma anchorOf_eq_specAnchor (name : String) : anchorOf name = specAnchor name := by
  show (⟨(name.data.map Char.toLower).map fun c => if c = ' ' then '-' else c⟩ : String) =
    ⟨name.data.map fun c => if c.toLower = ' ' then '-' else c.toLower⟩
  refine congrArg String.mk ?_
  rw [List.map_map]
  rfl

lemma tocEntries_eq (ps : List (String × String)) :
    ∀ i, tocEntries i ps = concatStrs (((List.range' i ps.length).zip ps).map fun x => tocLine x.1 x.2.1) := by
  induction ps with
  | nil => intro i; rfl
  | cons p ps ih =>
    intro i
    obtain ⟨n, c⟩ := p
    have hr : List.range' i (ps.length + 1) = i :: List.range' (i + 1) ps.length := rfl
    show tocLine i n ++ tocEntries (i + 1) ps = _
    rw [List.length_cons, hr, List.zip_cons_cons, List.map_cons, concatStrs, ih (i + 1)]

lemma sections_contains {projects : List (String × String)} {name content : String}
    (h : (name, content) ∈ projects) :
    ∃ s t : String, sections projects = s ++ (content ++ t) := by
  induction projects with
  | nil => cases h
  | cons p ps ih =>
    obtain ⟨n, c⟩ := p
    rcases List.mem_cons.mp h with hh | ht
    · injection hh with h1 h2
      subst h1
      subst h2
      exact ⟨"\n\n---\n\n<!-- PROJECT: " ++ (name ++ " -->\n\n"), "\n" ++ sections ps, by
        simp only [sections, projectSection, String.append_assoc]⟩
    · obtain ⟨s, t, hst⟩ := ih ht
      exact ⟨projectSection n c ++ s, t, by
        simp only [sections, hst, String.append_assoc]⟩

lemma includeProj_eq_some {d : Dir} {p : String × String} :
    includeProj d = some p ↔ read_readme d = some p.2 ∧ p.2 ≠ "" ∧ p.1 = d.name := by
  unfold includeProj
  cases h : read_readme d with
  | none => simp
  | some c =>
    show (if c = "" then none else some (d.name, c)) = some p ↔
      some c = some p.2 ∧ p.2 ≠ "" ∧ p.1 = d.name
    by_cases hc : c = ""
    · subst hc
      rw [if_pos rfl]
      constructor
      · intro hfalse
        cases hfalse
      · rintro ⟨h2, hne, _⟩
        injection h2 with h2
        exact absurd h2.symm hne
    · rw [if_neg hc]
      constructor
      · intro hp
        injection hp with hp
        subst hp
        exact ⟨rfl, hc, rfl⟩
      · rintro ⟨h2, _, h1⟩
        injection h2 with h2
        obtain ⟨pa, pb⟩ := p
        simp only at h1 h2
        rw [h1, ← h2]

lemma sorted_get_project_dirs (root : List Entry) :
    List.Sorted dirLe (get_project_dirs root) :=
  List.sorted_insertionSort dirLe (rootDirs root)

lemma map_fst_filterMap_sorted :
    ∀ {l : List Dir}, List.Sorted dirLe l →
      List.Sorted (· ≤ ·) ((l.filterMap includeProj).map Prod.fst) := by
  intro l
  induction l with
  | nil => intro _; simp
  | cons d l ih =>
    intro h
    rw [List.sorted_cons] at h
    obtain ⟨hd, hl⟩ := h
    cases hp : includeProj d with
    | none =>
      rw [List.filterMap_cons_none hp]
      exact ih hl
    | some p =>
      rw [List.filterMap_cons_some hp, List.map_cons, List.sorted_cons]
      refine ⟨?_, ih hl⟩
      intro b hb
      obtain ⟨q, hq, rfl⟩ := List.mem_map.mp hb
      obtain ⟨x, hx, hxq⟩ := List.mem_filterMap.mp hq
      have h1 : p.1 = d.name := (includeProj_eq_some.mp hp).2.2
      have h2 : q.1 = x.name := (includeProj_eq_some.mp hxq).2.2
      rw [h1, h2]
      exact (dirLe_iff d x).mp (hd x hx)

lemma collectProjects_mem (root : List Entry) (n c : String) :
    (n, c) ∈ collectProjects root ↔
      ∃ d, d ∈ rootDirs root ∧ d.name = n ∧ read_readme d = some c ∧ c ≠ "" := by
  unfold collectProjects get_project_dirs
  rw [List.mem_filterMap]
  constructor
  · rintro ⟨d, hd, hsome⟩
    obtain ⟨h2, hne, h1⟩ := includeProj_eq_some.mp hsome
    exact ⟨d, (List.mem_insertionSort dirLe).mp hd, h1.symm, h2, hne⟩
  · rintro ⟨d, hd, h1, h2, hne⟩
    refine ⟨d, (List.mem_insertionSort dirLe).mpr hd, includeProj_eq_some.mpr ⟨h2, hne, h1.symm⟩⟩

lemma collectProjects_nil (root : List Entry)
    (h : ∀ d ∈ rootDirs root, read_readme d = none) :
    collectProjects root = [] := by
  unfold collectProjects get_project_dirs
  rw [List.filterMap_eq_nil_iff]
  intro d hd
  have hmem : d ∈ rootDirs root := (List.mem_insertionSort dirLe).mp hd
  unfold includeProj
  rw [h d hmem]

lemma lookup_readme_of_mem :
    ∀ (l : List (String × String)) (c : String), ("README.md", c) ∈ l →
      (l.map Prod.fst).Nodup → l.lookup "README.md" = some c := by
  intro l
  induction l with
  | nil => intro c hc _; cases hc
  | cons p l ih =>
    intro c hc hnd
    obtain ⟨k, v⟩ := p
    rw [List.map_cons, List.nodup_cons] at hnd
    rcases List.mem_cons.mp hc with hh | ht
    · injection hh with h1 h2
      subst h1
      subst h2
      simp [List.lookup]
    · by_cases hk : k = "README.md"
      · subst hk
        exact absurd (List.mem_map.mpr ⟨("README.md", c), ht, rfl⟩) hnd.1
      · have hb : (("README.md" : String) == k) = false :=
          beq_eq_false_iff_ne.mpr fun he => hk he.symm
        rw [List.lookup, hb]
        exact ih c ht hnd.2

lemma lookup_readme_of_not_mem :
    ∀ l : List (String × String), (∀ c, ("README.md", c) ∉ l) →
      l.lookup "README.md" = none := by
  intro l
  induction l with
  | nil => intro _; rfl
  | cons p l ih =>
    intro h
    obtain ⟨k, v⟩ := p
    by_cases hk : k = "README.md"
    · subst hk
      exact absurd (List.mem_cons_self _ _) (h v)
    · have hb : (("README.md" : String) == k) = false :=
        beq_eq_false_iff_ne.mpr fun he => hk he.symm
      rw [List.lookup, hb]
      exact ih fun c hc => h c (List.mem_cons_of_mem _ hc)

lemma dirSim_orderedInsert {a b : Dir} (hab : dirSim a b) :
    ∀ {l₁ l₂ : List Dir}, List.Forall₂ dirSim l₁ l₂ →
      List.Forall₂ dirSim (List.orderedInsert dirLe a l₁) (List.orderedInsert dirLe b l₂) := by
  intro l₁ l₂ h
  induction h with
  | nil => exact List.Forall₂.cons hab List.Forall₂.nil
  | @cons x y l₁ l₂ hxy hrest ih =>
    have hiff : dirLe a x ↔ dirLe b y := by
      unfold dirLe
      rw [hab.1, hxy.1]
    simp only [List.orderedInsert]
    by_cases hax : dirLe a x
    · rw [if_pos hax, if_pos (hiff.mp hax)]
      exact List.Forall₂.cons hab (List.Forall₂.cons hxy hrest)
    · rw [if_neg hax, if_neg (fun hby => hax (hiff.mpr hby))]
      exact List.Forall₂.cons hxy ih

lemma dirSim_insertionSort :
    ∀ {l₁ l₂ : List Dir}, List.Forall₂ dirSim l₁ l₂ →
      List.Forall₂ dirSim (List.insertionSort dirLe l₁) (List.insertionSort dirLe l₂) := by
  intro l₁ l₂ h
  induction h with
  | nil => exact List.Forall₂.nil
  | cons hxy hrest ih =>
    simp only [List.insertionSort]
    exact dirSim_orderedInsert hxy ih

lemma filterMap_dirSim :
    ∀ {l₁ l₂ : List Dir}, List.Forall₂ dirSim l₁ l₂ →
      l₁.filterMap includeProj = l₂.filterMap includeProj := by
  intro l₁ l₂ h
  induction h with
  | nil => rfl
  | @cons x y l₁ l₂ hxy hrest ih =>
    cases hp : includeProj y with
    | none => rw [List.filterMap_cons_none (hxy.2.trans hp), List.filterMap_cons_none hp, ih]
    | some p => rw [List.filterMap_cons_some (hxy.2.trans hp), List.filterMap_cons_some hp, ih]

lemma collect_cons_sim (d d' : Dir) (root : List Entry) (h : dirSim d d') :
    collectProjects (Entry.dir d :: root) = collectProjects (Entry.dir d' :: root) := by
  unfold collectProjects get_project_dirs
  have h1 : rootDirs (Entry.dir d :: root) = d :: rootDirs root := rfl
  have h2 : rootDirs (Entry.dir d' :: root) = d' :: rootDirs root := rfl
  rw [h1, h2]
  refine filterMap_dirSim (dirSim_insertionSort (List.Forall₂.cons h ?_))
  exact List.forall₂_same.mpr fun x _ => ⟨rfl, rfl⟩

lemma readme_erased (files : List (String × String)) :
    (files.filter fun p => p.1 != "README.md").lookup "README.md" = none := by
  induction files with
  | nil => rfl
  | cons p l ih =>
    obtain ⟨k, v⟩ := p
    by_cases hk : k = "README.md"
    · subst hk
      rw [List.filter_cons]
      simp only [bne_self_eq_false]
      exact ih
    · have hb : ((k : String) != "README.md") = true := bne_iff_ne.mpr hk
      have hb2 : (("README.md" : String) == k) = false :=
        beq_eq_false_iff_ne.mpr fun he => hk he.symm
      rw [List.filter_cons, if_pos ?side, List.lookup, hb2]
      · exact ih
      case side => rw [hb]

lemma titleCore_zip :
    ∀ (s : List Char) (p : Option Char),
      titleCore (prevCased p) s = (s.zip (p :: s.map some)).map titleStep := by
  intro s
  induction s with
  | nil => intro _; rfl
  | cons c cs ih =>
    intro p
    rw [List.map_cons, List.zip_cons_cons, List.map_cons]
    show (if c.isAlpha then (if prevCased p then c.toLower else c.toUpper) else c)
        :: titleCore c.isAlpha cs = titleStep (c, p) :: (cs.zip (some c :: cs.map some)).map titleStep
    rw [← ih (some c)]
    rfl

/-- C1 (amended): the project list driving the table of contents is sorted
by directory name in ascending codepoint order, is a permutation of the
per-directory contributions (one entry per contributing directory), and
holds the pair `(n, c)` exactly when some subdirectory named `n` holds a
`README.md` with nonempty content `c`.  The claim as frozen says every
directory containing a `README.md` is listed; the code additionally
requires the content to be truthy, so a directory with an empty `README.md`
is omitted (see the counterexample). -/
theorem toc_lists_exactly_dirs_with_nonempty_readme (root : List Entry) :
    List.Sorted (· ≤ ·) ((collectProjects root).map Prod.fst) ∧
    (collectProjects root).Perm ((rootDirs root).filterMap includeProj) ∧
    ∀ n c, (n, c) ∈ collectProjects root ↔
      ∃ d, d ∈ rootDirs root ∧ d.name = n ∧ read_readme d = some c ∧ c ≠ "" :=
  ⟨map_fst_filterMap_sorted (sorted_get_project_dirs root),
   (List.perm_insertionSort dirLe (rootDirs root)).filterMap includeProj,
   collectProjects_mem root⟩

/-- C1 witness: on a concrete two-directory root the characterization
produces the expected member. -/
theorem toc_lists_exactly_dirs_with_nonempty_readme_check :
    ("a", "A") ∈ collectProjects
      [Entry.dir ⟨"b", [("README.md", "B")]⟩, Entry.dir ⟨"a", [("README.md", "A")]⟩] :=
  ((toc_lists_exactly_dirs_with_nonempty_readme
      [Entry.dir ⟨"b", [("README.md", "B")]⟩, Entry.dir ⟨"a", [("README.md", "A")]⟩]).2.2
    "a" "A").mpr ⟨⟨"a", [("README.md", "A")]⟩, by decide, rfl, by decide, by decide⟩

/-- C1 counterexample: a directory that does contain a `README.md` (the
read succeeds and returns the empty string) yet appears nowhere in the
generated table of contents, refuting the claim that the table of contents
lists exactly the directories containing a `README.md` file. -/
theorem toc_omits_dir_with_empty_readme :
    read_readme ⟨"alpha", [("README.md", "")]⟩ = some "" ∧
    collectProjects cexRoot = [] ∧
    generate_toc (collectProjects cexRoot) = "## Table of Contents\n\n" :=
  ⟨by decide, by decide, by decide⟩

/-- C2: every included README content occurs verbatim as a contiguous
substring of the assembled document: the document splits as
`s ++ content ++ t`. -/
theorem readme_verbatim_in_doc (date : String) (projects : List (String × String))
    (name content : String) (h : (name, content) ∈ projects) :
    ∃ s t : String, assembleDoc date projects = s ++ (content ++ t) := by
  obtain ⟨s, t, hst⟩ := sections_contains h
  refine ⟨docHead ++ (date ++ (headerMid ++ (generate_toc projects ++ ("\n---\n\n" ++ s)))), t, ?_⟩
  unfold assembleDoc
  rw [hst]
  simp only [String.append_assoc]

/-- C2 witness: concrete instantiation on a one-project list. -/
theorem readme_verbatim_in_doc_check :
    ∃ s t : String, assembleDoc "2025-01-01" [("proj", "HELLO")] = s ++ ("HELLO" ++ t) :=
  readme_verbatim_in_doc "2025-01-01" [("proj", "HELLO")] "proj" "HELLO" (by decide)

/-- C3 counterexample: for the directory name `ab1cd` the code produces
`Ab1Cd` (Python `str.title()` restarts a word at every non-letter, here
the digit), while capitalizing the first letter of each
whitespace-separated word as the claim states would produce `Ab1cd`. -/
theorem title_casing_not_whitespace_word_casing :
    titleOf "ab1cd" = "Ab1Cd" ∧ specC3Title "ab1cd" = "Ab1cd" ∧
    titleOf "ab1cd" ≠ specC3Title "ab1cd" :=
  ⟨by decide, by decide, by decide⟩

/-- C3 (amended): the title is computed by replacing dashes with spaces and
then applying the casing rule of Python `str.title()` — a letter preceded
by a letter is lowercased, a letter preceded by a non-letter or at the
start is uppercased, word boundaries being every non-letter character —
followed by dropping the first space-separated word when it is purely
numeric and a remainder exists. -/
theorem title_casing_matches_python_title (name : String) :
    titleOf name =
      dropNumWord
        ⟨((replaceDash name).data.zip (none :: (replaceDash name).data.map some)).map titleStep⟩ := by
  unfold titleOf pyTitle
  exact congrArg (fun l => dropNumWord ⟨l⟩) (titleCore_zip (replaceDash name).data none)

/-- C4: the table of contents is the fixed heading followed by exactly one
line per project, the i-th line carrying index i for i = 1..N in order
(the indices are the list `range' 1 N`, with no gaps and no repeats), each
line of the form index, dot, bracketed title, parenthesized anchor. -/
theorem toc_numbering_one_to_n (projects : List (String × String)) :
    generate_toc projects =
      "## Table of Contents\n\n" ++
        concatStrs (((List.range' 1 projects.length).zip projects).map fun x => tocLine x.1 x.2.1) := by
  unfold generate_toc
  rw [tocEntries_eq projects 1]

/-- C5: the anchor slug in a table of contents line is the original
directory name lowercased with every space replaced by a hyphen (the
transformation applies to the directory name, not to the derived title). -/
theorem anchor_from_directory_name (i : Nat) (name : String) :
    anchorOf name = specAnchor name ∧
    tocLine i name =
      toString i ++ (". [" ++ (titleOf name ++ ("](#" ++ (specAnchor name ++ ")\n")))) := by
  refine ⟨anchorOf_eq_specAnchor name, ?_⟩
  unfold tocLine
  rw [anchorOf_eq_specAnchor name]

/-- C6: when no subdirectory has a `README.md` (including a root with no
subdirectories at all), the run prints exactly the single informational
message, writes nothing — leaving any existing output file unchanged — and
terminates normally. -/
theorem no_projects_prints_message_and_writes_nothing (root : List Entry) (date : String)
    (h : ∀ d ∈ rootDirs root, read_readme d = none) :
    main root date = { stdout := ["No project README files found!"], written := none } := by
  unfold main
  rw [collectProjects_nil root h]
  rfl

/-- C6 witness: a root with one README-less directory and a stray file. -/
theorem no_projects_prints_message_and_writes_nothing_check :
    main [Entry.dir ⟨"alpha", [("notes.txt", "n")]⟩, Entry.file "stray" "s"] "2025-03-03" =
      { stdout := ["No project README files found!"], written := none } :=
  no_projects_prints_message_and_writes_nothing _ _ (by decide)

/-- C7: the README reader returns the full content of the file literally
named `README.md` when one exists directly in the directory (filenames
being unique in a directory), returns the explicit absent result `none`
when no such file exists, and a successful read is never the absent
result. -/
theorem read_readme_contract (d : Dir) :
    (∀ c, ("README.md", c) ∈ d.files → (d.files.map Prod.fst).Nodup → read_readme d = some c) ∧
    ((∀ c, ("README.md", c) ∉ d.files) → read_readme d = none) ∧
    (∀ c, read_readme d = some c → read_readme d ≠ none) :=
  ⟨fun c hc hnd => lookup_readme_of_mem d.files c hc hnd,
   fun h => lookup_readme_of_not_mem d.files h,
   fun _ hc => by rw [hc]; exact fun he => Option.noConfusion he⟩

/-- C7 witness: a present README is read in full and an absent one yields
the absent result. -/
theorem read_readme_contract_check :
    read_readme ⟨"proj", [("README.md", "content")]⟩ = some "content" ∧
    read_readme ⟨"bare", [("notes.txt", "n")]⟩ = none := by
  constructor
  · exact (read_readme_contract _).1 "content" (by decide) (by decide)
  · refine (read_readme_contract _).2.1 ?_
    intro c hc
    have hfst : ("README.md" : String) = "notes.txt" :=
      congrArg Prod.fst (List.mem_singleton.mp hc)
    exact absurd hfst (by decide)

/-- C8: the run is a function of the directory listing, the README
contents and the date, and the assembled document decomposes as a fixed
head, then the date, then a tail depending only on the filesystem input —
so two runs on unchanged inputs produce byte-identical documents except
for the embedded generation date. -/
theorem output_deterministic_modulo_date (root : List Entry) (date : String) :
    (main root date).written =
      if (collectProjects root).isEmpty = true then none
      else some ("docs/PORTFOLIO.md", docHead ++ (date ++ docTail (collectProjects root))) := by
  unfold main runWith
  by_cases h : (collectProjects root).isEmpty = true
  · rw [if_pos h, if_pos h]
  · rw [if_neg h, if_neg h]
    rfl

/-- C9 (amended): after writing, the console summary reports the project
count and the length of the assembled document in characters (unicode
codepoints, Python `len`), formatted with thousands separators — not its
size in bytes (see the counterexample). -/
theorem summary_reports_char_count (root : List Entry) (date : String)
    (h : (collectProjects root).isEmpty = false) :
    (main root date).stdout =
      ["Portfolio generated: docs/PORTFOLIO.md",
       "Total projects: " ++ toString (collectProjects root).length,
       "Total size: " ++
         (pyThousands (assembleDoc date (collectProjects root)).length ++ " characters")] := by
  have hne : ¬ (collectProjects root).isEmpty = true := by
    intro he
    rw [h] at he
    cases he
  unfold main runWith
  rw [if_neg hne]

/-- C9 witness: the summary on a concrete root. -/
theorem summary_reports_char_count_check :
    (main [Entry.dir ⟨"alpha", [("README.md", "hi")]⟩] "2025-02-02").stdout =
      ["Portfolio generated: docs/PORTFOLIO.md",
       "Total projects: " ++
         toString (collectProjects [Entry.dir ⟨"alpha", [("README.md", "hi")]⟩]).length,
       "Total size: " ++
         (pyThousands (assembleDoc "2025-02-02"
           (collectProjects [Entry.dir ⟨"alpha", [("README.md", "hi")]⟩])).length ++
            " characters")] :=
  summary_reports_char_count _ _ (by decide)

set_option maxRecDepth 8000 in
/-- C9 counterexample: on a root whose README holds non-ASCII characters
the code reports the codepoint count of the document, which differs from
the byte size of the written UTF-8 file, so the reported size is not the
byte size. -/
theorem summary_size_not_byte_size :
    (main root9 "2025-05-05").stdout =
      ["Portfolio generated: docs/PORTFOLIO.md",
       "Total projects: 1",
       "Total size: " ++ (pyThousands doc9.length ++ " characters")] ∧
    doc9.length ≠ byteLen doc9 ∧
    ("Total size: " ++ (pyThousands doc9.length ++ " characters")) ≠
      ("Total size: " ++ (pyThousands (byteLen doc9) ++ " characters")) :=
  ⟨by decide, by decide, by decide⟩

/-- C10: a directory whose `README.md` exists but is empty contributes no
project entry — inclusion is gated on the truthiness of the read content —
and the whole run behaves exactly as if that `README.md` file were absent
from the directory. -/
theorem empty_readme_like_absent (root : List Entry) (d : Dir) (date : String)
    (h : read_readme d = some "") :
    includeProj d = none ∧
    main (Entry.dir d :: root) date =
      main (Entry.dir ⟨d.name, d.files.filter fun p => p.1 != "README.md"⟩ :: root) date := by
  have h1 : includeProj d = none := by
    unfold includeProj
    rw [h]
    show (if ("" : String) = "" then none else some (d.name, "")) = none
    rw [if_pos rfl]
  have h2 : includeProj ⟨d.name, d.files.filter fun p => p.1 != "README.md"⟩ = none := by
    unfold includeProj read_readme
    rw [readme_erased d.files]
  refine ⟨h1, ?_⟩
  unfold main
  rw [collect_cons_sim d ⟨d.name, d.files.filter fun p => p.1 != "README.md"⟩ root
    ⟨rfl, h1.trans h2.symm⟩]

/-- C10 witness: a concrete one-directory root with an empty README. -/
theorem empty_readme_like_absent_check :
    includeProj ⟨"alpha", [("README.md", "")]⟩ = none ∧
    main [Entry.dir ⟨"alpha", [("README.md", "")]⟩] "2025-01-01" =
      main [Entry.dir ⟨"alpha", List.filter (fun p => p.1 != "README.md") [("README.md", "")]⟩]
        "2025-01-01" :=
  empty_readme_like_absent [] ⟨"alpha", [("README.md", "")]⟩ "2025-01-01" (by decide)

end PortfolioGen
